import Mathlib

/-!
Verification of the llm-proxy core against its specification.

This file gives a shallow embedding, in Lean 4, of the parts of the
llm-proxy Go code base that the checked claims are about:

* `session.go`        — `PatternState`, `ComputePatterns`, session lookup;
* `proxy.go`          — `nextSeq`, `copyHeaders`, upstream forwarding;
* `streaming.go`      — SSE line-by-line streaming (from the repo plan doc);
* `loki_exporter.go`  — `Push`, `sendBatch`, the batching worker counters;
* `multi_writer.go`   — the journal/exporter fan-out (from the repo plan doc);
* `obfuscate.go`      — `ObfuscateAPIKey` / `ObfuscateHeaders` (plan doc).

Go machine integers are modelled as `Nat` (all the counters involved only
ever increase and start at zero), Go strings either as `String` (when only
equality matters) or as `List Char` (when the claim needs positional
reasoning), Go maps as association lists, and mutation as explicit state
passing.  Library calls that the code treats as black boxes (`time.Parse`,
the HTTP send) are abstracted as function parameters of the model.
-/

namespace LLMProxy

/-! ## Pattern state (`session.go`) -/

/-- Per-session pattern-tracking state, mirroring `PatternState` in
`session.go` (turn_count, session_tool_count, tool_streak, retry_count,
last_tool_name, last_was_error, pending_tool_ids). -/
structure PatternState where
  turnCount : Nat
  sessionToolCount : Nat
  toolStreak : Nat
  retryCount : Nat
  lastToolName : String
  lastWasError : Bool
  pendingToolIDs : List (String × String)
  deriving Repr, DecidableEq

/-- The zero-value state with an empty pending map, as returned by
`SessionManager.LoadPatternState` for a new session. -/
def PatternState.fresh : PatternState :=
  { turnCount := 0, sessionToolCount := 0, toolStreak := 0, retryCount := 0
    lastToolName := "", lastWasError := false, pendingToolIDs := [] }

/-- `ComputePatterns` from `session.go`: updates streak/retry state from the
first tool name of a response and returns the updated state together with
the `isRetry` flag.  The Go function mutates `state` through a pointer and
returns `isRetry`; here the updated state is returned explicitly. -/
def ComputePatterns (state : PatternState) (firstToolName : String) :
    PatternState × Bool :=
  if firstToolName = "" then
    -- No tools in response - reset streak but keep other state
    ({ state with toolStreak := 0, retryCount := 0 }, false)
  else
    -- Check if this is a retry: same first tool AND previous tool had error
    let isRetry := decide (firstToolName = state.lastToolName) && state.lastWasError
    -- Update streak logic
    let streak := if firstToolName = state.lastToolName then state.toolStreak + 1 else 1
    -- Update retry count
    let retry := if isRetry then state.retryCount + 1 else 0
    ({ state with toolStreak := streak, retryCount := retry,
                  lastToolName := firstToolName }, isRetry)

/-! ## Event engine turn flow -/

/-- A `tool_result` block extracted from a request body: `tool_use_id` and
the optional `is_error` flag (absent ⇒ false), as in `extractToolResults`. -/
structure ToolResult where
  toolUseID : String
  isError : Bool
  deriving Repr, DecidableEq

/-- The payload of an emitted `turn_start` event. -/
structure TurnStartEvent where
  turnDepth : Nat
  errorRecovered : Bool
  deriving Repr, DecidableEq

/-- Modelled from the spec: the per-turn flow of the event engine
(`processToolResultsAndEmitEvents` and the `turn_start`/`turn_end`
emission), whose source file is not among the provided sources — only its
tests are.  Following spec §4.9 the tool-results of the request are folded
first (`last_was_error := OR of is_error`), before `turn_start` is emitted;
following the behaviour pinned by `TestErrorRecoveredFlag`
(`event_emission_test.go`, turns 2 and 3) and spec §9, the emitted
`error_recovered` carries the value `last_was_error` held *before* this
fold, while `ComputePatterns` (the real `session.go` function) runs after
the fold and therefore sees the folded value for retry detection.  Returns
the final state, the emitted `turn_start`, and `is_retry`. -/
def processTurn (state : PatternState) (results : List ToolResult)
    (firstToolName : String) (numToolUses : Nat) :
    PatternState × TurnStartEvent × Bool :=
  let prevErr := state.lastWasError
  let anyError := results.any (fun r => r.isError)
  let st1 := { state with lastWasError := anyError }
  let ev : TurnStartEvent := { turnDepth := st1.turnCount + 1, errorRecovered := prevErr }
  let p := ComputePatterns st1 firstToolName
  let st2 := p.1
  let st3 := { st2 with sessionToolCount := st2.sessionToolCount + numToolUses,
                        turnCount := st2.turnCount + 1 }
  (st3, ev, p.2)

/-! ## HTTP headers and `copyHeaders` (`proxy.go`) -/

/-- `http.Header`: a map from header name to the list of its values,
modelled as an association list in iteration order. -/
abbrev Header := List (String × List String)

/-- Map lookup `h[key]` on a `Header` (Go map indexing). -/
def hLookup (h : Header) (k : String) : Option (List String) :=
  match h with
  | [] => none
  | kv :: rest => if kv.1 = k then some kv.2 else hLookup rest k

/-- `http.Header.Add`: `dst[key] = append(dst[key], value)` — appends the
value to the existing entry, or inserts a fresh singleton entry. -/
def hAdd (h : Header) (k : String) (v : String) : Header :=
  match hLookup h k with
  | some _ => h.map (fun kv => if kv.1 = k then (kv.1, kv.2 ++ [v]) else kv)
  | none => h ++ [(k, [v])]

/-- `copyHeaders(dst, src)` from `proxy.go`: for every key of `src`, `Add`
each of its values into `dst`, in order.  No key is skipped — the function
applies no hop-by-hop deny list. -/
def copyHeaders (dst : Header) (src : Header) : Header :=
  src.foldl (fun d kv => kv.2.foldl (fun d' v => hAdd d' kv.1 v) d) dst

/-- The keys of a header map. -/
def hKeys (h : Header) : List String := h.map (fun kv => kv.1)

theorem not_key_of_not_mem_hKeys {h : Header} {k : String}
    (hk : k ∉ hKeys h) : ∀ kv ∈ h, kv.1 ≠ k := by
  intro kv hkv e
  exact hk (e ▸ List.mem_map_of_mem (fun kv => kv.1) hkv)

theorem hLookup_eq_none_of_not_mem {h : Header} {k : String}
    (hk : k ∉ hKeys h) : hLookup h k = none := by
  induction h with
  | nil => rfl
  | cons kv rest ih =>
    have h1 : ¬ (kv.1 = k) := not_key_of_not_mem_hKeys hk kv (List.mem_cons_self _ _)
    have h2 : k ∉ hKeys rest := by
      intro m
      exact hk (List.mem_cons_of_mem _ m)
    simp [hLookup, h1, ih h2]

theorem hAdd_fresh {h : Header} {k : String} (v : String)
    (hk : k ∉ hKeys h) : hAdd h k v = h ++ [(k, [v])] := by
  simp [hAdd, hLookup_eq_none_of_not_mem hk]

theorem hLookup_append_self {h : Header} {k : String} (acc : List String)
    (hk : k ∉ hKeys h) : hLookup (h ++ [(k, acc)]) k = some acc := by
  induction h with
  | nil => simp [hLookup]
  | cons kv rest ih =>
    have h1 : ¬ (kv.1 = k) := not_key_of_not_mem_hKeys hk kv (List.mem_cons_self _ _)
    have h2 : k ∉ hKeys rest := by
      intro m
      exact hk (List.mem_cons_of_mem _ m)
    simp only [List.cons_append, hLookup, if_neg h1]
    exact ih h2

theorem hAdd_append_last {h : Header} {k : String} (acc : List String)
    (v : String) (hk : k ∉ hKeys h) :
    hAdd (h ++ [(k, acc)]) k v = h ++ [(k, acc ++ [v])] := by
  have hmap : (h ++ [(k, acc)]).map
      (fun kv => if kv.1 = k then (kv.1, kv.2 ++ [v]) else kv) =
      h ++ [(k, acc ++ [v])] := by
    rw [List.map_append]
    congr 1
    · have hcongr : ∀ kv ∈ h,
          (fun kv => if kv.1 = k then (kv.1, kv.2 ++ [v]) else kv) kv = id kv := by
        intro kv hkv
        simp [not_key_of_not_mem_hKeys hk kv hkv]
      rw [List.map_congr_left hcongr, List.map_id]
    · simp
  simp [hAdd, hLookup_append_self acc hk, hmap]

theorem foldl_hAdd_fresh {h : Header} {k : String} (acc vs : List String)
    (hk : k ∉ hKeys h) :
    vs.foldl (fun d v => hAdd d k v) (h ++ [(k, acc)]) = h ++ [(k, acc ++ vs)] := by
  induction vs generalizing acc with
  | nil => simp
  | cons v rest ih =>
    simp only [List.foldl_cons, hAdd_append_last acc v hk]
    rw [ih (acc ++ [v])]
    simp

/-- Copying into a header map whose keys are disjoint from the source
appends the source entries unchanged (provided the source has the
`http.Header` map invariants: unique keys, non-empty value lists). -/
theorem copyHeaders_disjoint (src : Header) : ∀ dst : Header,
    (∀ k ∈ hKeys src, k ∉ hKeys dst) → (hKeys src).Nodup →
    (∀ kv ∈ src, kv.2 ≠ []) → copyHeaders dst src = dst ++ src := by
  induction src with
  | nil => intro dst _ _ _; simp [copyHeaders]
  | cons kv rest ih =>
    intro dst hdisj hnodup hne
    obtain ⟨k, vs⟩ := kv
    have hkdst : k ∉ hKeys dst := hdisj k (by simp [hKeys])
    have hvs : vs ≠ [] := hne (k, vs) (List.mem_cons_self _ _)
    have hstep : vs.foldl (fun d' v => hAdd d' k v) dst = dst ++ [(k, vs)] := by
      obtain ⟨v, vs', rfl⟩ := List.exists_cons_of_ne_nil hvs
      simp only [List.foldl_cons, hAdd_fresh v hkdst]
      exact foldl_hAdd_fresh [v] vs' hkdst
    simp only [hKeys, List.map_cons, List.nodup_cons] at hnodup
    have hrest : copyHeaders (dst ++ [(k, vs)]) rest = dst ++ [(k, vs)] ++ rest := by
      apply ih
      · intro k' hk'
        simp only [hKeys, List.map_append, List.mem_append] at *
        rintro (h1 | h2)
        · exact hdisj k' (by simp [hKeys, hk']) h1
        · simp only [List.map_cons, List.map_nil, List.mem_singleton] at h2
          exact hnodup.1 (h2 ▸ hk')
      · exact hnodup.2
      · intro kv' hkv'; exact hne kv' (List.mem_cons_of_mem _ hkv')
    calc copyHeaders dst ((k, vs) :: rest)
        = copyHeaders (dst ++ [(k, vs)]) rest := by
          simp only [copyHeaders, List.foldl_cons]; rw [hstep]
      _ = dst ++ ((k, vs) :: rest) := by rw [hrest]; simp

/-- Copying a well-formed header map into a fresh empty map reproduces it
exactly: `copyHeaders` forwards every header, every value, in order. -/
theorem copyHeaders_nil (src : Header) (hnodup : (hKeys src).Nodup)
    (hne : ∀ kv ∈ src, kv.2 ≠ []) : copyHeaders [] src = src := by
  have := copyHeaders_disjoint src [] (by intro k _; simp [hKeys]) hnodup hne
  simpa using this

/-! ## SSE streaming (`streamResponse`, plan doc Task 13) -/

/-- One observable interaction with the client's response writer. -/
inductive StreamEvent where
  | write (chunk : List Char)
  | flush
  deriving Repr, DecidableEq

/-- The `streamResponse` read loop: `bufio.Reader.ReadBytes('\n')` reads up
to and including each newline (the final partial line is returned at EOF);
every non-empty line is written to the client and immediately flushed.
`remaining` is the unread part of the upstream body, `cur` the (reversed)
bytes of the line read so far. -/
def streamLoop : List Char → List Char → List StreamEvent
  | [], cur =>
    if cur = [] then [] else [StreamEvent.write cur.reverse, StreamEvent.flush]
  | c :: cs, cur =>
    if c = '\n' then
      StreamEvent.write (cur.reverse ++ ['\n']) :: StreamEvent.flush :: streamLoop cs []
    else
      streamLoop cs (c :: cur)

/-- The chunks written by a sequence of stream events, in order. -/
def writesOf : List StreamEvent → List (List Char)
  | [] => []
  | StreamEvent.write c :: rest => c :: writesOf rest
  | StreamEvent.flush :: rest => writesOf rest

theorem streamLoop_join (bs : List Char) : ∀ cur : List Char,
    (writesOf (streamLoop bs cur)).flatten = cur.reverse ++ bs := by
  induction bs with
  | nil =>
    intro cur
    by_cases h : cur = [] <;> simp [streamLoop, writesOf, h]
  | cons c cs ih =>
    intro cur
    by_cases h : c = '\n'
    · simp [streamLoop, h, writesOf, ih []]
    · simp [streamLoop, h, ih (c :: cur)]

theorem streamLoop_alternation (bs : List Char) : ∀ cur : List Char,
    streamLoop bs cur =
      (writesOf (streamLoop bs cur)).flatMap
        (fun l => [StreamEvent.write l, StreamEvent.flush]) := by
  induction bs with
  | nil =>
    intro cur
    by_cases h : cur = [] <;> simp [streamLoop, writesOf, h]
  | cons c cs ih =>
    intro cur
    by_cases h : c = '\n'
    · simp only [streamLoop, if_pos h, writesOf]
      rw [List.flatMap_cons]
      simp [← ih []]
    · simp only [streamLoop, if_neg h]
      exact ih (c :: cur)

theorem streamLoop_lines (bs : List Char) : ∀ cur : List Char,
    (∀ c ∈ cur, c ≠ '\n') →
    ∀ l ∈ writesOf (streamLoop bs cur), ∀ c ∈ l.dropLast, c ≠ '\n' := by
  induction bs with
  | nil =>
    intro cur hcur l hl
    by_cases h : cur = []
    · simp [streamLoop, h, writesOf] at hl
    · simp only [streamLoop, if_neg h, writesOf] at hl
      rcases List.mem_cons.mp hl with rfl | hl
      · intro c hc
        exact hcur c (List.mem_reverse.mp (List.dropLast_subset _ hc))
      · simp [writesOf] at hl
  | cons b cs ih =>
    intro cur hcur l hl
    by_cases h : b = '\n'
    · simp only [streamLoop, if_pos h, writesOf] at hl
      rcases List.mem_cons.mp hl with rfl | hl
      · intro c hc
        rw [List.dropLast_concat] at hc
        exact hcur c (List.mem_reverse.mp hc)
      · exact ih [] (by simp) l hl
    · simp only [streamLoop, if_neg h] at hl
      refine ih (b :: cur) ?_ l hl
      intro c hc
      rcases List.mem_cons.mp hc with rfl | hc
      · exact h
      · exact hcur c hc

/-! ## Request forwarding (`proxy.go` ServeHTTP) -/

/-- The upstream response as handed back by `http.Client.Do` (after the
body has been read): status code, headers and raw body bytes. -/
structure UpstreamResponse where
  status : Nat
  headers : Header
  body : List Char

/-- What the client observes: status, response headers, and the sequence of
writes/flushes on its connection. -/
structure ClientView where
  status : Nat
  headers : Header
  events : List StreamEvent

/-- The body bytes the client receives: all written chunks concatenated. -/
def ClientView.body (cv : ClientView) : List Char :=
  (writesOf cv.events).flatten

/-- The non-streaming response path of `Proxy.ServeHTTP` (`proxy.go`
lines 141–148): copy all upstream headers into the (fresh) response-writer
header map, write the status code, then write the fully-buffered body. -/
def forwardNonStreaming (resp : UpstreamResponse) : ClientView :=
  { status := resp.status
    headers := copyHeaders [] resp.headers
    events := [StreamEvent.write resp.body] }

/-- The streaming response path (`streamResponse` in the plan doc,
Task 13): copy headers, write the status, then forward the body
line-by-line, flushing after every line. -/
def streamResponse (resp : UpstreamResponse) : ClientView :=
  { status := resp.status
    headers := copyHeaders [] resp.headers
    events := streamLoop resp.body [] }

/-- The upstream request built by `Proxy.ServeHTTP` (`proxy.go`
lines 88–99): a fresh request whose header map is filled by
`copyHeaders(proxyReq.Header, r.Header)` and whose `Host` is set to the
upstream host. -/
structure UpstreamRequest where
  method : String
  host : String
  headers : Header
  body : List Char

/-- Build the upstream request from the client request (method, upstream
host, client headers, buffered body). -/
def forwardRequest (method : String) (upstream : String)
    (reqHeaders : Header) (body : List Char) : UpstreamRequest :=
  { method := method
    host := upstream
    headers := copyHeaders [] reqHeaders
    body := body }

/-! ## Sequence numbers (`proxy.go` `nextSeq`, `session.go`) -/

/-- `Proxy.nextSeq` from `proxy.go`: reads the per-session counter from the
`seqNums` map (Go zero value 0 when absent), stores the incremented value,
and returns the value read *before* the increment.  The map is modelled as
a total function with default 0, exactly Go's map-read semantics. -/
def nextSeq (seqNums : String → Nat) (sessionID : String) :
    Nat × (String → Nat) :=
  let seq := seqNums sessionID
  (seq, fun s => if s = sessionID then seq + 1 else seqNums s)

/-- The session store state relevant to sequence allocation: the client-id
→ session-id mapping and each session's `last_seq`. -/
structure SessionDB where
  byClient : List (String × String)
  lastSeq : List (String × Nat)

/-- Association-list lookup used by the store model. -/
def dbFind (m : List (String × α)) (k : String) : Option α :=
  match m with
  | [] => none
  | kv :: rest => if kv.1 = k then some kv.2 else dbFind rest k

/-- Association-list upsert used by the store model. -/
def dbSet (m : List (String × α)) (k : String) (v : α) : List (String × α) :=
  match m with
  | [] => [(k, v)]
  | kv :: rest => if kv.1 = k then (k, v) :: rest else kv :: dbSet rest k v

/-- Modelled from the spec (§4.2, the embedded store whose implementation
file is not among the provided sources): `FindByClientSessionID` /
`GetSessionWithClientID` / `UpdateSessionSeq` /
`CreateSessionWithClientID` reduced to the fields that sequence allocation
touches.  Creating a session records `last_seq = 1`, matching the returned
first sequence and the behaviour pinned by `session_test.go` (second
request of a client session gets seq 2).  The control flow is
`SessionManager.getOrCreateByClientSessionID` from `session.go`. -/
def getOrCreateByClientSessionID (db : SessionDB) (clientSessionID : String)
    (freshID : String) : SessionDB × String × Nat × Bool :=
  match dbFind db.byClient clientSessionID with
  | some existing =>
    let last := (dbFind db.lastSeq existing).getD 0
    let next := last + 1
    ({ db with lastSeq := dbSet db.lastSeq existing next }, existing, next, false)
  | none =>
    ({ byClient := dbSet db.byClient clientSessionID freshID
       lastSeq := dbSet db.lastSeq freshID 1 }, freshID, 1, true)

/-! ## Loki exporter (`loki_exporter.go`) -/

/-- A Go `interface{}` value as handed to `json.Marshal`: JSON-shaped data
plus `unsupported` for values `encoding/json` rejects (funcs, channels,
NaN floats, …). -/
inductive JValue where
  | null
  | jbool (b : Bool)
  | num (n : Int)
  | str (s : String)
  | arr (elems : List JValue)
  | obj (fields : List (String × JValue))
  | unsupported

mutual
/-- Whether `json.Marshal` succeeds on the value. -/
def marshalOk : JValue → Bool
  | JValue.unsupported => false
  | JValue.arr xs => marshalOkArr xs
  | JValue.obj fs => marshalOkObj fs
  | _ => true

def marshalOkArr : List JValue → Bool
  | [] => true
  | x :: xs => marshalOk x && marshalOkArr xs

def marshalOkObj : List (String × JValue) → Bool
  | [] => true
  | f :: fs => marshalOk f.2 && marshalOkObj fs
end

/-- A log entry: the JSON object (`map[string]interface{}`) passed to
`Push`. -/
abbrev LogEntry := List (String × JValue)

/-- Lookup of a key in a JSON object (Go map indexing + the `,ok` form). -/
def jLookup (fields : LogEntry) (k : String) : Option JValue :=
  match fields with
  | [] => none
  | f :: rest => if f.1 = k then some f.2 else jLookup rest k

/-- `lokiEntry`: the internal queued record built by `Push`. -/
structure LokiEntry where
  entry : JValue
  provider : String
  timestamp : Int
  logType : String
  machine : String

/-- The exporter state visible to the claims: the bounded channel contents
and the four atomic counters. -/
structure ExpState where
  queue : List LokiEntry
  sent : Nat
  failed : Nat
  dropped : Nat
  batchesSent : Nat

/-- The exporter's initial state. -/
def ExpState.init : ExpState :=
  { queue := [], sent := 0, failed := 0, dropped := 0, batchesSent := 0 }

/-- `entry._meta.ts` when `_meta` is an object and `ts` a string. -/
def metaTs (entry : LogEntry) : Option String :=
  match jLookup entry "_meta" with
  | some (JValue.obj meta) =>
    match jLookup meta "ts" with
    | some (JValue.str s) => some s
    | _ => none
  | _ => none

/-- `entry._meta.machine` when `_meta` is an object and `machine` a string. -/
def metaMachine (entry : LogEntry) : Option String :=
  match jLookup entry "_meta" with
  | some (JValue.obj meta) =>
    match jLookup meta "machine" with
    | some (JValue.str s) => some s
    | _ => none
  | _ => none

/-- `entry.type` when it is a string. -/
def typeField (entry : LogEntry) : Option String :=
  match jLookup entry "type" with
  | some (JValue.str s) => some s
  | _ => none

/-- `LokiExporter.Push` from `loki_exporter.go`: extract timestamp
(`_meta.ts` parsed as RFC3339Nano, else `time.Now()`), log type
(`entry.type`, else "unknown") and machine (`_meta.machine`, else
"unknown"), then do a non-blocking channel send — if the buffered channel
is full the entry is dropped and `entriesDropped` incremented.
`parse` abstracts `time.Parse(time.RFC3339Nano, ·)` (`none` = parse
error), `now` abstracts `time.Now()`, `bufferSize` is the channel
capacity. -/
def Push (parse : String → Option Int) (now : Int) (bufferSize : Nat)
    (st : ExpState) (entry : LogEntry) (provider : String) : ExpState :=
  let timestamp :=
    match jLookup entry "_meta" with
    | some (JValue.obj meta) =>
      match jLookup meta "ts" with
      | some (JValue.str ts) =>
        match parse ts with
        | some t => t
        | none => now
      | _ => now
    | _ => now
  let logType :=
    match jLookup entry "type" with
    | some (JValue.str t) => t
    | _ => "unknown"
  let machine :=
    match jLookup entry "_meta" with
    | some (JValue.obj meta) =>
      match jLookup meta "machine" with
      | some (JValue.str m) => m
      | _ => "unknown"
    | _ => "unknown"
  let le : LokiEntry :=
    { entry := JValue.obj entry, provider := provider, timestamp := timestamp,
      logType := logType, machine := machine }
  if st.queue.length < bufferSize then
    { st with queue := st.queue ++ [le] }
  else
    { st with dropped := st.dropped + 1 }

/-- `LokiExporter.sendBatch` counter effects, for a batch of `n` entries
taken from the front of the queue.  An empty batch returns immediately.
Otherwise each entry whose `json.Marshal` fails increments
`entriesFailed` by one (and its line is skipped); then the whole batch —
its full length, marshal failures included — is counted once more: on
send success (`ok`, i.e. some attempt within the retry budget returned
2xx) `entriesSent += n` and `batchesSent += 1`, on final failure
`entriesFailed += n`. -/
def sendBatch (st : ExpState) (n : Nat) (ok : Bool) : ExpState :=
  let batch := st.queue.take n
  let rest := st.queue.drop n
  if batch.isEmpty then
    { st with queue := rest }
  else
    let mf := (batch.filter (fun le => !(marshalOk le.entry))).length
    if ok then
      { st with queue := rest, failed := st.failed + mf,
                sent := st.sent + batch.length,
                batchesSent := st.batchesSent + 1 }
    else
      { st with queue := rest, failed := st.failed + mf + batch.length }

/-- One interleaving step of the exporter: either a producer calls `Push`,
or the worker flushes a batch of `n` queued entries with outcome `ok`
(size-triggered, timer-triggered or shutdown-drain flush — the counters do
not depend on which). -/
inductive ExpOp where
  | push (entry : LogEntry) (provider : String)
  | flush (n : Nat) (ok : Bool)

/-- Apply one exporter operation. -/
def expStep (parse : String → Option Int) (now : Int) (bufferSize : Nat)
    (st : ExpState) : ExpOp → ExpState
  | ExpOp.push e p => Push parse now bufferSize st e p
  | ExpOp.flush n ok => sendBatch st n ok

/-- Run the exporter over a whole schedule of operations. -/
def runExporter (parse : String → Option Int) (now : Int) (bufferSize : Nat)
    (ops : List ExpOp) : ExpState :=
  ops.foldl (expStep parse now bufferSize) ExpState.init

/-- The number of `Push` calls in a schedule. -/
def pushCount (ops : List ExpOp) : Nat :=
  (ops.filter (fun op => match op with | ExpOp.push _ _ => true | _ => false)).length

/-! ## Fan-out writer (`multi_writer.go`, plan part) -/

/-- Observable side effects of one `MultiWriter` call. -/
inductive LogAction where
  | journalWrite
  | exporterPush
  | closeExporter
  | closeJournal
  deriving Repr, DecidableEq

/-- `MultiWriter.LogRequest` (and the other log methods, which share the
same shape): call the file logger first — its result is `fileErr` — then,
whenever a Loki exporter is attached, build the JSON entry and `Push` it
(a call that returns nothing); finally return the file logger's error
unmodified.  The injected Journal is abstracted by its outcome. -/
def MultiWriterLogRequest (fileErr : Option String) (lokiPresent : Bool) :
    List LogAction × Option String :=
  let acts := [LogAction.journalWrite]
  let acts := if lokiPresent then acts ++ [LogAction.exporterPush] else acts
  (acts, fileErr)

/-- `MultiWriter.Close`: close the Loki exporter first (draining it), then
the file logger; the exporter's close error wins, else the file's. -/
def MultiWriterClose (lokiPresent : Bool) (lokiErr fileErr : Option String) :
    List LogAction × Option String :=
  if lokiPresent then
    ([LogAction.closeExporter, LogAction.closeJournal],
      match lokiErr with
      | some e => some e
      | none => fileErr)
  else
    ([LogAction.closeJournal], fileErr)

/-! ## Header obfuscation (`obfuscate.go`, plan doc Task 9) -/

/-- `strings.HasPrefix(s, p)` on byte strings modelled as char lists. -/
def hasPref : List Char → List Char → Bool
  | _, [] => true
  | [], _ :: _ => false
  | c :: cs, p :: ps => if p = c then hasPref cs ps else false

/-- `strings.Index(s, "-")`: byte index of the first `'-'`, `-1` if none. -/
def idxOfDash : List Char → Int
  | [] => -1
  | c :: cs =>
    if c = '-' then 0
    else
      let r := idxOfDash cs
      if r < 0 then -1 else r + 1

/-- The literal `"sk-ant-api03-"`. -/
def skA : List Char := ['s', 'k', '-', 'a', 'n', 't', '-', 'a', 'p', 'i', '0', '3', '-']

/-- The literal `"sk-ant-"`. -/
def skB : List Char := ['s', 'k', '-', 'a', 'n', 't', '-']

/-- The literal `"sk-proj-"`. -/
def skC : List Char := ['s', 'k', '-', 'p', 'r', 'o', 'j', '-']

/-- The literal `"sk-"`. -/
def skD : List Char := ['s', 'k', '-']

/-- The recognised key shapes (`prefixes` in the Go shape-extraction
helper), in the order the code checks them: `"sk-ant-api03-"`,
`"sk-ant-"`, `"sk-proj-"`, `"sk-"`. -/
def skPrefList : List (List Char) := [skA, skB, skC, skD]

/-- `strings.TrimSuffix(p, "-") + "-"` as applied to a matched shape. -/
def trimDashAddDash (p : List Char) : List Char :=
  (if p.getLast? = some '-' then p.dropLast else p) ++ ['-']

/-- `extractPrefix` from `obfuscate.go`: return the first recognised key
shape that starts the key (normalised through `TrimSuffix(·,"-") + "-"`);
otherwise fall back to the segment up to and including the first `'-'`
when that dash is at a positive index; otherwise the empty string. -/
def extractPref (key : List Char) : List Char :=
  match skPrefList.find? (fun p => hasPref key p) with
  | some p => trimDashAddDash p
  | none =>
    let idx := idxOfDash key
    if 0 < idx then key.take (idx.toNat + 1) else []

/-- `ObfuscateAPIKey` from `obfuscate.go`: empty stays empty; otherwise the
extracted shape, a literal `"..."`, and the last 4 characters when the key
is longer than 4. -/
def ObfuscateAPIKey (key : List Char) : List Char :=
  if key = [] then []
  else
    let suffix := if 4 < key.length then key.drop (key.length - 4) else []
    extractPref key ++ ['.', '.', '.'] ++ suffix

/-- `isAPIKeyHeader`: case-insensitive match against `x-api-key` and
`authorization`. -/
def isAPIKeyHeader (name : List Char) : Bool :=
  let lower := name.map Char.toLower
  lower = ['x', '-', 'a', 'p', 'i', '-', 'k', 'e', 'y'] ||
  lower = ['a', 'u', 't', 'h', 'o', 'r', 'i', 'z', 'a', 't', 'i', 'o', 'n']

/-- The literal `"Bearer "`. -/
def bearerLit : List Char := ['B', 'e', 'a', 'r', 'e', 'r', ' ']

/-- `obfuscateHeaderValue`: strip an optional `"Bearer "` prefix
(`strings.TrimPrefix`), obfuscate the token, re-attach the prefix. -/
def obfuscateHeaderValue (v : List Char) : List Char :=
  if hasPref v bearerLit then bearerLit ++ ObfuscateAPIKey (v.drop 7)
  else ObfuscateAPIKey v

/-- A sensitive header value of the shape the spec scopes obfuscation to:
optionally Bearer-prefixed, then a key longer than 4 characters that
starts with one of the recognised `sk-` shapes. -/
def goodSensitiveVal (v : List Char) : Bool :=
  let t := if hasPref v bearerLit then v.drop 7 else v
  skPrefList.any (fun p => hasPref t p) && decide (4 < t.length)

/-- A header map over char-list strings (the representation the
obfuscation claims need). -/
abbrev HeaderL := List (List Char × List (List Char))

/-- `ObfuscateHeaders` from `obfuscate.go`: build a fresh map holding, for
every key, a fresh value slice in which sensitive headers' values are
obfuscated and all other values are copied verbatim. -/
def ObfuscateHeaders (h : HeaderL) : HeaderL :=
  h.map (fun kv =>
    (kv.1, if isAPIKeyHeader kv.1 then kv.2.map obfuscateHeaderValue else kv.2))

/-- An explicit heap of header maps, for stating that `ObfuscateHeaders`
allocates rather than mutates: references are indices into the heap. -/
abbrev HeaderHeap := List HeaderL

/-- The allocation behaviour of `ObfuscateHeaders`: `result :=
make(http.Header)` allocates a fresh map, the loop only reads the input
reference `r` and writes the fresh map, and the fresh reference is
returned. -/
def obfuscateHeadersAlloc (heap : HeaderHeap) (r : Nat) : HeaderHeap × Nat :=
  (heap ++ [ObfuscateHeaders (heap.getD r [])], heap.length)

/-! ## Claim theorems -/

theorem computePatterns_lastWasError (st : PatternState) (name : String) :
    (ComputePatterns st name).1.lastWasError = st.lastWasError := by
  by_cases h : name = "" <;> simp [ComputePatterns, h]

theorem computePatterns_turnCount (st : PatternState) (name : String) :
    (ComputePatterns st name).1.turnCount = st.turnCount := by
  by_cases h : name = "" <;> simp [ComputePatterns, h]

/-- C4: `ComputePatterns` with an empty first-tool name zeroes the streak
and retry count, leaves `last_tool_name` unchanged and reports no retry;
with a non-empty name it reports a retry exactly when the name equals
`last_tool_name` and `last_was_error` holds, increments the streak on a
name match (else resets it to 1), increments the retry count on a retry
(else resets it to 0) and installs the new `last_tool_name`; in both cases
`last_was_error` is left untouched. -/
theorem C4_computePatterns_spec (st : PatternState) (name : String) :
    (name = "" →
      (ComputePatterns st name).1.toolStreak = 0 ∧
      (ComputePatterns st name).1.retryCount = 0 ∧
      (ComputePatterns st name).1.lastToolName = st.lastToolName ∧
      (ComputePatterns st name).2 = false) ∧
    (name ≠ "" →
      ((ComputePatterns st name).2 = true ↔
        name = st.lastToolName ∧ st.lastWasError = true) ∧
      (ComputePatterns st name).1.toolStreak =
        (if name = st.lastToolName then st.toolStreak + 1 else 1) ∧
      (ComputePatterns st name).1.retryCount =
        (if (ComputePatterns st name).2 then st.retryCount + 1 else 0) ∧
      (ComputePatterns st name).1.lastToolName = name) ∧
    (ComputePatterns st name).1.lastWasError = st.lastWasError := by
  refine ⟨fun h => ?_, fun h => ?_, computePatterns_lastWasError st name⟩
  · simp [ComputePatterns, h]
  · constructor
    · simp [ComputePatterns, if_neg h, Bool.and_eq_true, decide_eq_true_eq]
    · simp [ComputePatterns, if_neg h]

/-- C4 witness: the theorem applied to the "same tool after error" test
case of `TestComputePatterns` and to the empty-name case. -/
theorem C4_computePatterns_spec_witness :
    (ComputePatterns ⟨2, 5, 1, 0, "Bash", true, []⟩ "Bash").2 = true ∧
    (ComputePatterns ⟨2, 5, 1, 0, "Bash", true, []⟩ "").1.toolStreak = 0 := by
  have h1 := C4_computePatterns_spec ⟨2, 5, 1, 0, "Bash", true, []⟩ "Bash"
  have h2 := C4_computePatterns_spec ⟨2, 5, 1, 0, "Bash", true, []⟩ ""
  exact ⟨((h1.2.1 (by decide)).1).mpr ⟨rfl, rfl⟩, (h2.1 rfl).1⟩

/-- C2 counterexample: a turn whose own request folds an `is_error`
tool-result.  The fold sets `last_was_error` to true (visible in the
post-turn state), yet the `turn_start` emitted for that same turn carries
`error_recovered = false` — so the emitted flag does not equal the value
`pattern.last_was_error` holds once the fold has run, contradicting the
claim's reading. -/
theorem C2_emits_prefold_value :
    (processTurn PatternState.fresh [⟨"tool_err", true⟩] "Bash" 1).2.1.errorRecovered
      = false ∧
    (processTurn PatternState.fresh [⟨"tool_err", true⟩] "Bash" 1).1.lastWasError
      = true := by
  exact ⟨rfl, rfl⟩

/-- C2 (amended): on every session-tracked turn the engine folds the
request's tool-results into `last_was_error = OR of is_error` and emits
`turn_start` with `turn_depth = turn_count + 1`, but `error_recovered`
carries the value `last_was_error` held *before* this fold; consequently a
turn whose own request contains an `is_error` tool-result marks the
following turn's `error_recovered`, not its own. -/
theorem C2_turn_start_flow (st : PatternState) (results : List ToolResult)
    (name : String) (uses : Nat) :
    (processTurn st results name uses).2.1.turnDepth = st.turnCount + 1 ∧
    (processTurn st results name uses).2.1.errorRecovered = st.lastWasError ∧
    (processTurn st results name uses).1.lastWasError =
      results.any (fun r => r.isError) ∧
    (∀ (results2 : List ToolResult) (name2 : String) (uses2 : Nat),
      (processTurn (processTurn st results name uses).1
          results2 name2 uses2).2.1.errorRecovered =
        results.any (fun r => r.isError)) := by
  have hlwe : ∀ (st' : PatternState) (rs : List ToolResult) (n : String) (u : Nat),
      (processTurn st' rs n u).1.lastWasError = rs.any (fun r => r.isError) := by
    intro st' rs n u
    simp [processTurn, computePatterns_lastWasError]
  have herr : ∀ (st' : PatternState) (rs : List ToolResult) (n : String) (u : Nat),
      (processTurn st' rs n u).2.1.errorRecovered = st'.lastWasError := by
    intro st' rs n u
    simp [processTurn]
  refine ⟨?_, herr st results name uses, hlwe st results name uses, ?_⟩
  · simp [processTurn]
  · intro results2 name2 uses2
    rw [herr, hlwe]

/-- C2 witness: the three-turn scenario of `TestErrorRecoveredFlag`: the
turn after the error-carrying turn reports `error_recovered = true`. -/
theorem C2_turn_start_flow_witness :
    (processTurn (processTurn PatternState.fresh [⟨"tool_err", true⟩] "Bash" 1).1
        [⟨"tool_err", true⟩, ⟨"tool_retry", false⟩] "Bash" 1).2.1.errorRecovered
      = true := by
  have h := C2_turn_start_flow PatternState.fresh [⟨"tool_err", true⟩] "Bash" 1
  rw [h.2.2.2 [⟨"tool_err", true⟩, ⟨"tool_retry", false⟩] "Bash" 1]
  decide

/-- C3: journal sequence numbering.  `Proxy.nextSeq` (proxy.go) returns the
per-session counter *before* incrementing it, and the `seqNums` map starts
at the Go zero value — so the first request of a session is logged with
`seq = 0`, not `seq = 1` as the claim, the repo documentation
("Sequence 1: First request in session") and `session_test.go` require.
The `SessionManager` path (session.go) does satisfy the claim: a new
client session gets seq 1 and each continuation gets `last_seq + 1`
(here 2, then 3). -/
theorem C3_first_seq_is_zero :
    (nextSeq (fun _ => 0) "20260123-150405-a1b2").1 = 0 ∧
    (getOrCreateByClientSessionID ⟨[], []⟩ "abc" "s1").2.2.1 = 1 ∧
    (getOrCreateByClientSessionID
        (getOrCreateByClientSessionID ⟨[], []⟩ "abc" "s1").1 "abc" "s2").2.2.1 = 2 ∧
    (getOrCreateByClientSessionID
        (getOrCreateByClientSessionID
          (getOrCreateByClientSessionID ⟨[], []⟩ "abc" "s1").1 "abc" "s2").1
        "abc" "s3").2.2.1 = 3 := by
  refine ⟨rfl, rfl, ?_, ?_⟩ <;> decide

/-- C7 counterexample: when the Journal (file logger) call fails and an
exporter is attached, `MultiWriter.LogRequest` still pushes the entry to
the exporter — the push is not gated on the Journal's success, refuting
the claim's "only if the Journal call succeeded". -/
theorem C7_push_despite_journal_error :
    (MultiWriterLogRequest (some "disk full") true).1 =
      [LogAction.journalWrite, LogAction.exporterPush] ∧
    (MultiWriterLogRequest (some "disk full") true).2 = some "disk full" := by
  exact ⟨rfl, rfl⟩

/-- C7 (amended): every log method calls the Journal first and returns its
error unmodified; whenever an exporter is present the JSON entry is pushed
to it regardless of the Journal's outcome (the push returns nothing, so
exporter errors never surface from a log method); on close the exporter is
closed (drained) before the Journal. -/
theorem C7_fanout_order (fileErr : Option String) (lokiPresent : Bool)
    (lokiErr fileErr2 : Option String) :
    (MultiWriterLogRequest fileErr lokiPresent).1.head? =
      some LogAction.journalWrite ∧
    (LogAction.exporterPush ∈ (MultiWriterLogRequest fileErr lokiPresent).1 ↔
      lokiPresent = true) ∧
    (MultiWriterLogRequest fileErr lokiPresent).2 = fileErr ∧
    (MultiWriterClose true lokiErr fileErr2).1 =
      [LogAction.closeExporter, LogAction.closeJournal] ∧
    (MultiWriterClose false lokiErr fileErr2).1 = [LogAction.closeJournal] := by
  cases lokiPresent <;>
    simp [MultiWriterLogRequest, MultiWriterClose]

/-- C7 witness: the fan-out theorem applied with a failing Journal and an
attached exporter. -/
theorem C7_fanout_order_witness :
    LogAction.exporterPush ∈ (MultiWriterLogRequest (some "disk full") true).1 := by
  exact (C7_fanout_order (some "disk full") true none none).2.1.mpr rfl

/-- C6: `Push` never blocks the caller: it is a total function that, when
the bounded queue is full, leaves the queue untouched and increments the
`dropped` counter by exactly one; when there is room, it enqueues an entry
whose timestamp comes from `entry._meta.ts` when that parses as
RFC3339Nano (falling back to the current time), whose `log_type` comes
from `entry.type` ("unknown" when absent), and whose `machine` comes from
`entry._meta.machine` ("unknown" when absent). -/
theorem C6_push_spec (parse : String → Option Int) (now : Int)
    (bufferSize : Nat) (st : ExpState) (entry : LogEntry) (provider : String) :
    (bufferSize ≤ st.queue.length →
      Push parse now bufferSize st entry provider =
        { st with dropped := st.dropped + 1 }) ∧
    (st.queue.length < bufferSize →
      ∃ le : LokiEntry,
        Push parse now bufferSize st entry provider =
          { st with queue := st.queue ++ [le] } ∧
        le.entry = JValue.obj entry ∧
        le.provider = provider ∧
        le.timestamp = ((metaTs entry).bind parse).getD now ∧
        le.logType = (typeField entry).getD "unknown" ∧
        le.machine = (metaMachine entry).getD "unknown") := by
  have hts : (match jLookup entry "_meta" with
      | some (JValue.obj meta) =>
        match jLookup meta "ts" with
        | some (JValue.str ts) =>
          match parse ts with
          | some t => t
          | none => now
        | _ => now
      | _ => now) = ((metaTs entry).bind parse).getD now := by
    unfold metaTs
    split <;> try rfl
    split <;> try rfl
    split <;> simp_all
  have hlt : (match jLookup entry "type" with
      | some (JValue.str t) => t
      | _ => "unknown") = (typeField entry).getD "unknown" := by
    unfold typeField
    split <;> rfl
  have hmach : (match jLookup entry "_meta" with
      | some (JValue.obj meta) =>
        match jLookup meta "machine" with
        | some (JValue.str m) => m
        | _ => "unknown"
      | _ => "unknown") = (metaMachine entry).getD "unknown" := by
    unfold metaMachine
    split <;> try rfl
    split <;> rfl
  constructor
  · intro h
    simp only [Push, if_neg (Nat.not_lt.mpr h)]
  · intro h
    simp only [Push, if_pos h]
    exact ⟨_, rfl, rfl, rfl, hts, hlt, hmach⟩

/-- C6 witness: pushing onto a full zero-capacity queue drops and counts;
pushing onto an empty queue extracts the `_meta.ts` timestamp, the type
and the machine of a concrete entry. -/
theorem C6_push_spec_witness :
    (Push (fun _ => some 7) 99 0 ExpState.init
        [("type", JValue.str "request")] "anthropic").dropped = 1 ∧
    ∃ le : LokiEntry,
      Push (fun _ => some 7) 99 1 ExpState.init
          [("type", JValue.str "request"),
           ("_meta", JValue.obj [("ts", JValue.str "2026-01-23T15:04:05Z"),
                                 ("machine", JValue.str "drew@macbook")])]
          "anthropic" =
        { ExpState.init with queue := ExpState.init.queue ++ [le] } ∧
      le.timestamp = 7 ∧ le.logType = "request" ∧ le.machine = "drew@macbook" := by
  constructor
  · have h := (C6_push_spec (fun _ => some 7) 99 0 ExpState.init
      [("type", JValue.str "request")] "anthropic").1 (Nat.zero_le _)
    rw [h]
    rfl
  · obtain ⟨le, hpush, _, _, hts, hlt, hm⟩ :=
      (C6_push_spec (fun _ => some 7) 99 1 ExpState.init
        [("type", JValue.str "request"),
         ("_meta", JValue.obj [("ts", JValue.str "2026-01-23T15:04:05Z"),
                               ("machine", JValue.str "drew@macbook")])]
        "anthropic").2 (by decide)
    exact ⟨le, hpush, by rw [hts]; rfl, by rw [hlt]; rfl, by rw [hm]; rfl⟩

theorem pushCount_cons_push (e : LogEntry) (p : String) (ops : List ExpOp) :
    pushCount (ExpOp.push e p :: ops) = pushCount ops + 1 := by
  simp [pushCount, List.filter_cons]

theorem pushCount_cons_flush (n : Nat) (ok : Bool) (ops : List ExpOp) :
    pushCount (ExpOp.flush n ok :: ops) = pushCount ops := by
  simp [pushCount, List.filter_cons]

/-- The exporter counter balance: along any schedule whose pushed entries
all serialise, `sent + failed + dropped + |queue|` grows by exactly one per
`Push` call, and the queue keeps holding only serialisable entries. -/
theorem runExporter_balance (parse : String → Option Int) (now : Int)
    (bufferSize : Nat) :
    ∀ (ops : List ExpOp) (st : ExpState),
      (∀ op ∈ ops, ∀ e p, op = ExpOp.push e p → marshalOk (JValue.obj e) = true) →
      (∀ le ∈ st.queue, marshalOk le.entry = true) →
      (ops.foldl (expStep parse now bufferSize) st).sent +
        (ops.foldl (expStep parse now bufferSize) st).failed +
        (ops.foldl (expStep parse now bufferSize) st).dropped +
        (ops.foldl (expStep parse now bufferSize) st).queue.length =
        st.sent + st.failed + st.dropped + st.queue.length + pushCount ops ∧
      (∀ le ∈ (ops.foldl (expStep parse now bufferSize) st).queue,
        marshalOk le.entry = true) := by
  intro ops
  induction ops with
  | nil =>
    intro st _ hq
    exact ⟨by simp [pushCount], hq⟩
  | cons op rest ih =>
    intro st hops hq
    have hrest : ∀ op' ∈ rest, ∀ e p, op' = ExpOp.push e p →
        marshalOk (JValue.obj e) = true := by
      intro op' hop' e p he
      exact hops op' (List.mem_cons_of_mem _ hop') e p he
    cases op with
    | push e p =>
      have hm : marshalOk (JValue.obj e) = true :=
        hops (ExpOp.push e p) (List.mem_cons_self _ _) e p rfl
      have hstep2 : ∀ le ∈ (expStep parse now bufferSize st (ExpOp.push e p)).queue,
          marshalOk le.entry = true := by
        intro le hle
        by_cases hfull : st.queue.length < bufferSize
        · simp only [expStep, Push, if_pos hfull] at hle
          rcases List.mem_append.mp hle with h1 | h1
          · exact hq le h1
          · rcases List.mem_singleton.mp h1 with rfl
            exact hm
        · simp only [expStep, Push, if_neg hfull] at hle
          exact hq le hle
      have hstep1 : (expStep parse now bufferSize st (ExpOp.push e p)).sent +
          (expStep parse now bufferSize st (ExpOp.push e p)).failed +
          (expStep parse now bufferSize st (ExpOp.push e p)).dropped +
          (expStep parse now bufferSize st (ExpOp.push e p)).queue.length =
          st.sent + st.failed + st.dropped + st.queue.length + 1 := by
        by_cases hfull : st.queue.length < bufferSize
        · simp only [expStep, Push, if_pos hfull]
          simp [List.length_append]
          omega
        · simp only [expStep, Push, if_neg hfull]
          omega
      have hmain := ih (expStep parse now bufferSize st (ExpOp.push e p)) hrest hstep2
      refine ⟨?_, by simpa using hmain.2⟩
      simp only [List.foldl_cons, pushCount_cons_push]
      rw [hmain.1, hstep1]
      omega
    | flush n ok =>
      have hdropq : ∀ le ∈ st.queue.drop n, marshalOk le.entry = true := by
        intro le hle
        exact hq le (List.drop_subset n st.queue hle)
      have hstep2 : ∀ le ∈ (expStep parse now bufferSize st (ExpOp.flush n ok)).queue,
          marshalOk le.entry = true := by
        intro le hle
        by_cases hemp : (st.queue.take n).isEmpty
        · simp only [expStep, sendBatch, if_pos hemp] at hle
          exact hdropq le hle
        · have hmf : (st.queue.take n).filter
              (fun le => !(marshalOk le.entry)) = [] := by
            apply List.filter_eq_nil_iff.mpr
            intro x hx
            simp [hq x (List.take_subset n st.queue hx)]
          cases ok <;>
            simp only [expStep, sendBatch, if_neg hemp, hmf,
              Bool.false_eq_true, if_false, if_true] at hle <;>
            exact hdropq le hle
      have hstep1 : (expStep parse now bufferSize st (ExpOp.flush n ok)).sent +
          (expStep parse now bufferSize st (ExpOp.flush n ok)).failed +
          (expStep parse now bufferSize st (ExpOp.flush n ok)).dropped +
          (expStep parse now bufferSize st (ExpOp.flush n ok)).queue.length =
          st.sent + st.failed + st.dropped + st.queue.length := by
        have hlentake : (st.queue.take n).length = min n st.queue.length :=
          st.queue.length_take n
        have hlendrop : (st.queue.drop n).length = st.queue.length - n :=
          st.queue.length_drop n
        by_cases hemp : (st.queue.take n).isEmpty
        · have hq0 : (st.queue.take n).length = 0 := by
            rw [List.isEmpty_iff.mp hemp]
            rfl
          simp only [expStep, sendBatch, if_pos hemp]
          simp only [hlendrop]
          rw [hlentake] at hq0
          omega
        · have hmf : (st.queue.take n).filter
              (fun le => !(marshalOk le.entry)) = [] := by
            apply List.filter_eq_nil_iff.mpr
            intro x hx
            simp [hq x (List.take_subset n st.queue hx)]
          cases ok <;>
            simp only [expStep, sendBatch, if_neg hemp, hmf,
              Bool.false_eq_true, if_false, if_true, List.length_nil] <;>
          · simp only [hlendrop]
            rw [hlentake] at *
            omega
      have hmain := ih (expStep parse now bufferSize st (ExpOp.flush n ok)) hrest hstep2
      refine ⟨?_, by simpa using hmain.2⟩
      simp only [List.foldl_cons, pushCount_cons_flush]
      rw [hmain.1, hstep1]

/-- The balance law instantiated at the exporter's initial state. -/
theorem runExporter_balance_init (parse : String → Option Int) (now : Int)
    (bufferSize : Nat) (ops : List ExpOp)
    (hok : ∀ op ∈ ops, ∀ e p, op = ExpOp.push e p → marshalOk (JValue.obj e) = true) :
    (runExporter parse now bufferSize ops).sent +
      (runExporter parse now bufferSize ops).failed +
      (runExporter parse now bufferSize ops).dropped +
      (runExporter parse now bufferSize ops).queue.length = pushCount ops := by
  have h := (runExporter_balance parse now bufferSize ops ExpState.init hok
    (by intro le hle; simp [ExpState.init] at hle)).1
  simpa [runExporter, ExpState.init] using h

/-- C8 counterexample: one `Push` of an entry whose JSON serialisation
fails, flushed in a batch whose HTTP send succeeds.  The entry is counted
once in `failed` (at serialisation) and once more in `sent` (with the
batch), so `sent + failed + dropped = 2` while only one entry was ever
pushed — the accounting identity `dropped = pushes − sent − failed` fails. -/
theorem C8_identity_fails_on_marshal_error :
    (runExporter (fun _ => none) 0 10
        [ExpOp.push [("x", JValue.unsupported)] "anthropic",
         ExpOp.flush 1 true]).sent = 1 ∧
    (runExporter (fun _ => none) 0 10
        [ExpOp.push [("x", JValue.unsupported)] "anthropic",
         ExpOp.flush 1 true]).failed = 1 ∧
    (runExporter (fun _ => none) 0 10
        [ExpOp.push [("x", JValue.unsupported)] "anthropic",
         ExpOp.flush 1 true]).dropped = 0 ∧
    pushCount [ExpOp.push [("x", JValue.unsupported)] "anthropic",
         ExpOp.flush 1 true] = 1 := by
  refine ⟨rfl, rfl, rfl, rfl⟩

/-- C8 (amended): after `close()` completes (every queued entry has been
flushed, i.e. the final queue is empty), the accounting identity
`sent + failed + dropped = number of Push calls` holds for every workload
in which every pushed entry serialises to JSON; entries whose
serialisation fails are double-counted (once in `failed` at serialisation
time and once more in the batch-level `sent`/`failed` increment), breaking
the identity by exactly their number. -/
theorem C8_accounting_identity (parse : String → Option Int) (now : Int)
    (bufferSize : Nat) (ops : List ExpOp)
    (hok : ∀ op ∈ ops, ∀ e p, op = ExpOp.push e p → marshalOk (JValue.obj e) = true)
    (hdrained : (runExporter parse now bufferSize ops).queue = []) :
    (runExporter parse now bufferSize ops).sent +
      (runExporter parse now bufferSize ops).failed +
      (runExporter parse now bufferSize ops).dropped = pushCount ops := by
  have h := runExporter_balance_init parse now bufferSize ops hok
  rw [hdrained] at h
  simpa using h

/-- C8 witness: a concrete overflow workload — buffer of size 1, three
pushes (one dropped), one failed flush and one successful flush; the
identity `sent + failed + dropped = number of pushes` holds after the
drain. -/
theorem C8_accounting_identity_witness :
    (runExporter (fun _ => none) 0 1
        [ExpOp.push [("type", JValue.str "request")] "anthropic",
         ExpOp.push [("type", JValue.str "request")] "anthropic",
         ExpOp.flush 1 false,
         ExpOp.push [("type", JValue.str "response")] "anthropic",
         ExpOp.flush 1 true]).sent +
      (runExporter (fun _ => none) 0 1
        [ExpOp.push [("type", JValue.str "request")] "anthropic",
         ExpOp.push [("type", JValue.str "request")] "anthropic",
         ExpOp.flush 1 false,
         ExpOp.push [("type", JValue.str "response")] "anthropic",
         ExpOp.flush 1 true]).failed +
      (runExporter (fun _ => none) 0 1
        [ExpOp.push [("type", JValue.str "request")] "anthropic",
         ExpOp.push [("type", JValue.str "request")] "anthropic",
         ExpOp.flush 1 false,
         ExpOp.push [("type", JValue.str "response")] "anthropic",
         ExpOp.flush 1 true]).dropped =
      pushCount
        [ExpOp.push [("type", JValue.str "request")] "anthropic",
         ExpOp.push [("type", JValue.str "request")] "anthropic",
         ExpOp.flush 1 false,
         ExpOp.push [("type", JValue.str "response")] "anthropic",
         ExpOp.flush 1 true] := by
  apply C8_accounting_identity
  · intro op hop e p he
    fin_cases hop <;> first
      | (injection he with he1 he2
         subst he1
         decide)
      | (exact absurd he (by simp))
  · rfl

/-- C1: byte-faithfulness of the proxy.  On the non-streaming path the
client receives exactly the upstream status, headers (all of them, hence in
particular the non-hop-by-hop ones) and body bytes; on the
`text/event-stream` path status and headers are likewise forwarded, the
concatenation of the written chunks equals the upstream body byte for
byte, every write is immediately followed by a flush, in order, and each
written chunk is a single line (no interior newline).  The header map is
assumed well-formed (unique keys, non-empty value lists), the `http.Header`
invariant. -/
theorem C1_byte_faithful (resp : UpstreamResponse)
    (hnodup : (hKeys resp.headers).Nodup)
    (hne : ∀ kv ∈ resp.headers, kv.2 ≠ []) :
    (forwardNonStreaming resp).status = resp.status ∧
    (forwardNonStreaming resp).headers = resp.headers ∧
    (forwardNonStreaming resp).body = resp.body ∧
    (streamResponse resp).status = resp.status ∧
    (streamResponse resp).headers = resp.headers ∧
    (streamResponse resp).body = resp.body ∧
    (streamResponse resp).events =
      (writesOf (streamResponse resp).events).flatMap
        (fun l => [StreamEvent.write l, StreamEvent.flush]) ∧
    (∀ l ∈ writesOf (streamResponse resp).events, ∀ c ∈ l.dropLast, c ≠ '\n') := by
  refine ⟨rfl, copyHeaders_nil resp.headers hnodup hne, ?_, rfl,
    copyHeaders_nil resp.headers hnodup hne, ?_, ?_, ?_⟩
  · show (writesOf [StreamEvent.write resp.body]).flatten = resp.body
    simp [writesOf]
  · show (writesOf (streamLoop resp.body [])).flatten = resp.body
    simpa using streamLoop_join resp.body []
  · exact streamLoop_alternation resp.body []
  · exact streamLoop_lines resp.body [] (by simp)

/-- C1 witness: the theorem applied to a concrete SSE response with two
`data:` frames. -/
theorem C1_byte_faithful_witness :
    (streamResponse ⟨200, [("Content-Type", ["text/event-stream"])],
        ("data: a\n" ++ "data: b\n").toList⟩).body =
      ("data: a\n" ++ "data: b\n").toList ∧
    (forwardNonStreaming ⟨200, [("Content-Type", ["text/event-stream"])],
        ("data: a\n" ++ "data: b\n").toList⟩).headers =
      [("Content-Type", ["text/event-stream"])] := by
  have h := C1_byte_faithful ⟨200, [("Content-Type", ["text/event-stream"])],
      ("data: a\n" ++ "data: b\n").toList⟩ (by decide) (by decide)
  exact ⟨h.2.2.2.2.2.1, h.2.1⟩

/-- C5 counterexample: the hop-by-hop header `Connection: keep-alive` *is*
forwarded to the upstream — `copyHeaders` applies no hop-by-hop deny list,
refuting "which are never forwarded". -/
theorem C5_hop_by_hop_forwarded :
    hLookup (forwardRequest "POST" "api.anthropic.com"
        [("Connection", ["keep-alive"])] []).headers "Connection" =
      some ["keep-alive"] := by
  decide

/-- C5 (amended): when building the upstream request all client headers are
copied verbatim — including the hop-by-hop ones, since `copyHeaders`
applies no deny list — and the `Host` is set to the upstream host.  The
client header map is assumed well-formed (unique keys, non-empty value
lists). -/
theorem C5_all_headers_copied (method upstream : String) (h : Header)
    (body : List Char) (hnodup : (hKeys h).Nodup)
    (hne : ∀ kv ∈ h, kv.2 ≠ []) :
    (forwardRequest method upstream h body).headers = h ∧
    (forwardRequest method upstream h body).host = upstream ∧
    (forwardRequest method upstream h body).body = body := by
  exact ⟨copyHeaders_nil h hnodup hne, rfl, rfl⟩

/-- C5 witness: a concrete request whose `Connection` and `Authorization`
headers are both copied and whose Host is the upstream. -/
theorem C5_all_headers_copied_witness :
    (forwardRequest "POST" "api.anthropic.com"
        [("Connection", ["keep-alive"]), ("Authorization", ["Bearer x"])]
        []).headers =
      [("Connection", ["keep-alive"]), ("Authorization", ["Bearer x"])] ∧
    (forwardRequest "POST" "api.anthropic.com"
        [("Connection", ["keep-alive"]), ("Authorization", ["Bearer x"])]
        []).host = "api.anthropic.com" := by
  have h := C5_all_headers_copied "POST" "api.anthropic.com"
    [("Connection", ["keep-alive"]), ("Authorization", ["Bearer x"])] []
    (by decide) (by decide)
  exact ⟨h.1, h.2.1⟩

/-- C10: `ObfuscateHeaders` allocates and returns a fresh header map and
never mutates its input: in the explicit-heap model the input reference's
contents (every key and every value) are unchanged after the call, the
returned reference is distinct from the input reference, and it holds the
obfuscated copy. -/
theorem C10_obfuscate_no_mutation (heap : HeaderHeap) (r : Nat)
    (hr : r < heap.length) :
    (obfuscateHeadersAlloc heap r).1[r]? = heap[r]? ∧
    (obfuscateHeadersAlloc heap r).2 ≠ r ∧
    (obfuscateHeadersAlloc heap r).1[(obfuscateHeadersAlloc heap r).2]? =
      some (ObfuscateHeaders (heap.getD r [])) := by
  refine ⟨?_, ?_, ?_⟩
  · show (heap ++ [ObfuscateHeaders (heap.getD r [])])[r]? = heap[r]?
    rw [List.getElem?_append]
    rw [if_pos hr]
  · show heap.length ≠ r
    exact Ne.symm (Nat.ne_of_lt hr)
  · show (heap ++ [ObfuscateHeaders (heap.getD r [])])[heap.length]? =
      some (ObfuscateHeaders (heap.getD r []))
    simp

/-- C10 witness: a concrete heap with one sensitive header map. -/
theorem C10_obfuscate_no_mutation_witness :
    (obfuscateHeadersAlloc
        [[("Authorization".toList, ["Bearer sk-proj-anothersecret999".toList])]]
        0).1[0]? =
      some [("Authorization".toList, ["Bearer sk-proj-anothersecret999".toList])] ∧
    (obfuscateHeadersAlloc
        [[("Authorization".toList, ["Bearer sk-proj-anothersecret999".toList])]]
        0).2 ≠ 0 := by
  have h := C10_obfuscate_no_mutation
    [[("Authorization".toList, ["Bearer sk-proj-anothersecret999".toList])]] 0
    (by decide)
  exact ⟨h.1, h.2.1⟩

theorem hasPref_append (p s : List Char) : hasPref (p ++ s) p = true := by
  induction p with
  | nil => cases s <;> rfl
  | cons a ps ih => simp [hasPref, ih]

theorem hasPref_append_assoc (p m s : List Char) :
    hasPref (p ++ m ++ s) p = true := by
  rw [List.append_assoc]
  exact hasPref_append p (m ++ s)

theorem hasPref_elim {s p : List Char} (h : hasPref s p = true) :
    ∃ r, s = p ++ r := by
  induction p generalizing s with
  | nil => exact ⟨s, rfl⟩
  | cons a ps ih =>
    cases s with
    | nil => simp [hasPref] at h
    | cons c cs =>
      by_cases hac : a = c
      · subst hac
        simp only [hasPref, if_pos rfl] at h
        obtain ⟨r, rfl⟩ := ih h
        exact ⟨r, rfl⟩
      · simp [hasPref, hac] at h

theorem oak_fix_core (t p0 : List Char)
    (hlen : 4 < t.length)
    (hne : t ≠ [])
    (hp : extractPref t = p0)
    (hne2 : p0 ++ ['.', '.', '.'] ++ t.drop (t.length - 4) ≠ [])
    (hp2 : extractPref (p0 ++ ['.', '.', '.'] ++ t.drop (t.length - 4)) = p0) :
    ObfuscateAPIKey t = p0 ++ ['.', '.', '.'] ++ t.drop (t.length - 4) ∧
    ObfuscateAPIKey (ObfuscateAPIKey t) = ObfuscateAPIKey t := by
  have hs : (t.drop (t.length - 4)).length = 4 := by
    rw [List.length_drop]
    omega
  have hoak : ObfuscateAPIKey t =
      p0 ++ ['.', '.', '.'] ++ t.drop (t.length - 4) := by
    simp only [ObfuscateAPIKey, if_neg hne, if_pos hlen, hp]
  refine ⟨hoak, ?_⟩
  have hlen2 : 4 < (p0 ++ ['.', '.', '.'] ++ t.drop (t.length - 4)).length := by
    simp [List.length_append, hs]
  have hsuf : (p0 ++ ['.', '.', '.'] ++ t.drop (t.length - 4)).drop
      ((p0 ++ ['.', '.', '.'] ++ t.drop (t.length - 4)).length - 4) =
      t.drop (t.length - 4) := by
    have hassoc : p0 ++ ['.', '.', '.'] ++ t.drop (t.length - 4) =
        (p0 ++ ['.', '.', '.']) ++ t.drop (t.length - 4) := by
      simp [List.append_assoc]
    have hl : (p0 ++ ['.', '.', '.'] ++ t.drop (t.length - 4)).length - 4 =
        (p0 ++ ['.', '.', '.']).length := by
      simp [List.length_append, hs]
    rw [hl, hassoc, List.drop_left]
  rw [hoak]
  simp only [ObfuscateAPIKey, if_neg hne2, if_pos hlen2, hp2]
  rw [hsuf]

theorem trimDash_skA : trimDashAddDash skA = skA := rfl

theorem trimDash_skB : trimDashAddDash skB = skB := rfl

theorem trimDash_skC : trimDashAddDash skC = skC := rfl

theorem trimDash_skD : trimDashAddDash skD = skD := rfl

theorem skA_ne_nil_append (r : List Char) : skA ++ r ≠ [] := by simp [skA]

/-- `ObfuscateAPIKey` on a recognised key (one that starts with one of the
four `sk-` shapes and is longer than 4 characters) produces
`shape ++ "..." ++ last-4`, and is a fixed point from then on. -/
theorem oak_recognised {t : List Char} (hlen : 4 < t.length)
    (hany : skPrefList.any (fun p => hasPref t p) = true) :
    (∃ p0, p0 ∈ skPrefList ∧
      ObfuscateAPIKey t = p0 ++ ['.', '.', '.'] ++ t.drop (t.length - 4)) ∧
    ObfuscateAPIKey (ObfuscateAPIKey t) = ObfuscateAPIKey t := by
  by_cases h0 : hasPref t skA = true
  · obtain ⟨r, rfl⟩ := hasPref_elim h0
    have hcore := oak_fix_core (skA ++ r) skA hlen
      (by simp [skA])
      (by
        simp only [extractPref, skPrefList, List.find?]
        rw [hasPref_append skA r]
        exact trimDash_skA)
      (by simp [skA])
      (by
        simp only [extractPref, skPrefList, List.find?]
        rw [hasPref_append_assoc skA ['.', '.', '.'] ((skA ++ r).drop ((skA ++ r).length - 4))]
        exact trimDash_skA)
    exact ⟨⟨skA, by simp [skPrefList], hcore.1⟩, hcore.2⟩
  · replace h0 : hasPref t skA = false := by simpa using h0
    by_cases h1 : hasPref t skB = true
    · obtain ⟨r, rfl⟩ := hasPref_elim h1
      have h0b : hasPref (skB ++ ['.', '.', '.'] ++
          (skB ++ r).drop ((skB ++ r).length - 4)) skA = false := rfl
      have hcore := oak_fix_core (skB ++ r) skB hlen
        (by simp [skB])
        (by
          simp only [extractPref, skPrefList, List.find?]
          rw [h0, hasPref_append skB r]
          exact trimDash_skB)
        (by simp [skB])
        (by
          simp only [extractPref, skPrefList, List.find?]
          rw [h0b, hasPref_append_assoc skB ['.', '.', '.'] ((skB ++ r).drop ((skB ++ r).length - 4))]
          exact trimDash_skB)
      exact ⟨⟨skB, by simp [skPrefList], hcore.1⟩, hcore.2⟩
    · replace h1 : hasPref t skB = false := by simpa using h1
      by_cases h2 : hasPref t skC = true
      · obtain ⟨r, rfl⟩ := hasPref_elim h2
        have h0b : hasPref (skC ++ ['.', '.', '.'] ++
            (skC ++ r).drop ((skC ++ r).length - 4)) skA = false := rfl
        have h1b : hasPref (skC ++ ['.', '.', '.'] ++
            (skC ++ r).drop ((skC ++ r).length - 4)) skB = false := rfl
        have hcore := oak_fix_core (skC ++ r) skC hlen
          (by simp [skC])
          (by
            simp only [extractPref, skPrefList, List.find?]
            rw [h0, h1, hasPref_append skC r]
            exact trimDash_skC)
          (by simp [skC])
          (by
            simp only [extractPref, skPrefList, List.find?]
            rw [h0b, h1b,
              hasPref_append_assoc skC ['.', '.', '.'] ((skC ++ r).drop ((skC ++ r).length - 4))]
            exact trimDash_skC)
        exact ⟨⟨skC, by simp [skPrefList], hcore.1⟩, hcore.2⟩
      · replace h2 : hasPref t skC = false := by simpa using h2
        by_cases h3 : hasPref t skD = true
        · obtain ⟨r, rfl⟩ := hasPref_elim h3
          have h0b : hasPref (skD ++ ['.', '.', '.'] ++
              (skD ++ r).drop ((skD ++ r).length - 4)) skA = false := rfl
          have h1b : hasPref (skD ++ ['.', '.', '.'] ++
              (skD ++ r).drop ((skD ++ r).length - 4)) skB = false := rfl
          have h2b : hasPref (skD ++ ['.', '.', '.'] ++
              (skD ++ r).drop ((skD ++ r).length - 4)) skC = false := rfl
          have hcore := oak_fix_core (skD ++ r) skD hlen
            (by simp [skD])
            (by
              simp only [extractPref, skPrefList, List.find?]
              rw [h0, h1, h2, hasPref_append skD r]
              exact trimDash_skD)
            (by simp [skD])
            (by
              simp only [extractPref, skPrefList, List.find?]
              rw [h0b, h1b, h2b,
                hasPref_append_assoc skD ['.', '.', '.'] ((skD ++ r).drop ((skD ++ r).length - 4))]
              exact trimDash_skD)
          exact ⟨⟨skD, by simp [skPrefList], hcore.1⟩, hcore.2⟩
        · replace h3 : hasPref t skD = false := by simpa using h3
          simp [skPrefList, h0, h1, h2, h3] at hany

theorem bearer_not_pref_of_sk {p0 : List Char} (hp : p0 ∈ skPrefList)
    (x : List Char) : hasPref (p0 ++ x) bearerLit = false := by
  simp only [skPrefList, List.mem_cons, List.not_mem_nil, or_false] at hp
  rcases hp with rfl | rfl | rfl | rfl <;> rfl

/-- `obfuscateHeaderValue` is idempotent on well-shaped sensitive values. -/
theorem obfuscateHeaderValue_idem {v : List Char}
    (hv : goodSensitiveVal v = true) :
    obfuscateHeaderValue (obfuscateHeaderValue v) = obfuscateHeaderValue v := by
  by_cases hb : hasPref v bearerLit = true
  · have hv' : skPrefList.any (fun p => hasPref (v.drop 7) p) = true ∧
        4 < (v.drop 7).length := by
      have := hv
      simp only [goodSensitiveVal, hb, if_true, Bool.and_eq_true,
        decide_eq_true_eq] at this
      exact this
    have hfix := (oak_recognised hv'.2 hv'.1).2
    have h1 : obfuscateHeaderValue v =
        bearerLit ++ ObfuscateAPIKey (v.drop 7) := by
      simp only [obfuscateHeaderValue, hb, if_true]
    rw [h1]
    have h2 : hasPref (bearerLit ++ ObfuscateAPIKey (v.drop 7)) bearerLit = true :=
      hasPref_append bearerLit _
    have h3 : (bearerLit ++ ObfuscateAPIKey (v.drop 7)).drop 7 =
        ObfuscateAPIKey (v.drop 7) := by
      have : bearerLit.length = 7 := rfl
      rw [← this, List.drop_left]
    simp only [obfuscateHeaderValue, h2, if_true, h3, hfix]
  · have hbf : hasPref v bearerLit = false := by simpa using hb
    have hv' : skPrefList.any (fun p => hasPref v p) = true ∧ 4 < v.length := by
      have := hv
      simp only [goodSensitiveVal, hbf, if_false, Bool.and_eq_true,
        decide_eq_true_eq, Bool.false_eq_true] at this
      exact this
    obtain ⟨⟨p0, hp0, hshape⟩, hfix⟩ := oak_recognised hv'.2 hv'.1
    have h1 : obfuscateHeaderValue v = ObfuscateAPIKey v := by
      simp only [obfuscateHeaderValue, hbf, Bool.false_eq_true, if_false]
    rw [h1]
    have h2 : hasPref (ObfuscateAPIKey v) bearerLit = false := by
      rw [hshape, List.append_assoc]
      exact bearer_not_pref_of_sk hp0 _
    simp only [obfuscateHeaderValue, h2, Bool.false_eq_true, if_false, hfix]

/-- C9 counterexample: obfuscation is not idempotent.  For the header map
`Authorization: a-b` one application gives `a-...` and a second gives
`a-...-...` — the second application treats the first's output as a fresh
key whose last four characters are `-...`. -/
theorem C9_not_idempotent :
    ObfuscateHeaders (ObfuscateHeaders
        [("Authorization".toList, [['a', '-', 'b']])]) ≠
      ObfuscateHeaders [("Authorization".toList, [['a', '-', 'b']])] := by
  decide

/-- C9 (amended): header obfuscation is pure and deterministic
(a function of its argument), headers other than `authorization` and
`x-api-key` pass through unchanged, and it is idempotent on every header
map whose sensitive values are of the shape the spec scopes obfuscation
to — optionally `Bearer `-prefixed keys longer than 4 characters starting
with a recognised `sk-` shape; on arbitrary values idempotence fails
(see the counterexample). -/
theorem C9_obfuscation_idem (h : HeaderL)
    (hgood : ∀ kv ∈ h, isAPIKeyHeader kv.1 = true →
      ∀ v ∈ kv.2, goodSensitiveVal v = true) :
    ObfuscateHeaders (ObfuscateHeaders h) = ObfuscateHeaders h ∧
    (∀ kv ∈ h, isAPIKeyHeader kv.1 = false → kv ∈ ObfuscateHeaders h) := by
  constructor
  · show (ObfuscateHeaders h).map _ = _
    rw [ObfuscateHeaders, List.map_map]
    apply List.map_congr_left
    intro kv hkv
    by_cases hs : isAPIKeyHeader kv.1 = true
    · simp only [Function.comp, hs, if_true, List.map_map]
      congr 1
      apply List.map_congr_left
      intro v hv
      exact obfuscateHeaderValue_idem (hgood kv hkv hs v hv)
    · have hsf : isAPIKeyHeader kv.1 = false := by simpa using hs
      simp only [Function.comp, hsf, Bool.false_eq_true, if_false]
  · intro kv hkv hsf
    have himg : (fun kv : List Char × List (List Char) =>
        (kv.1, if isAPIKeyHeader kv.1 then kv.2.map obfuscateHeaderValue
               else kv.2)) kv = kv := by
      simp [hsf]
    exact himg ▸ List.mem_map_of_mem _ hkv

/-- C9 witness: a concrete map with a Bearer `sk-proj-` token and a
non-sensitive `Content-Type` header. -/
theorem C9_obfuscation_idem_witness :
    ObfuscateHeaders (ObfuscateHeaders
        [("Authorization".toList, ["Bearer sk-proj-anothersecret999".toList]),
         ("Content-Type".toList, ["application/json".toList])]) =
      ObfuscateHeaders
        [("Authorization".toList, ["Bearer sk-proj-anothersecret999".toList]),
         ("Content-Type".toList, ["application/json".toList])] := by
  exact (C9_obfuscation_idem
    [("Authorization".toList, ["Bearer sk-proj-anothersecret999".toList]),
     ("Content-Type".toList, ["application/json".toList])]
    (by decide)).1

end LLMProxy
